import Mathlib

/-!
Verification development for the Kyra resource/archive management subsystem
(engines/kyra/resource/resource.cpp).

The embedding models the `Resource` facade state: the "archives" (normal,
unloadable) search layer, the "protected" layer, the archive cache and the
owned archive store.  `Common::String` is a byte string, so names are
modelled as lists of byte values; `Common::String::toUppercase` maps each
byte through `toupper`.  The name-keyed containers (`Common::SearchSet`,
`Common::HashMap`) are not part of the excerpted sources; following the
specification they are name-keyed maps, modelled as association lists whose
removal erases the key.  Archives are owned by the cache; layers reference
them by identifier, and an identifier resolves only while the archive is
still in the store (deleting the cached archive leaves any other reference
dangling, modelled as a failed store lookup).
-/

/-- Byte strings: the model of `Common::String`. -/
abbrev Name := List Nat

/-- `toupper` on one byte, as applied by `Common::String::toUppercase`. -/
def upByte (b : Nat) : Nat := if 97 ≤ b ∧ b ≤ 122 then b - 32 else b

/-- `Common::String::toUppercase`: uppercase every byte of the string. -/
def upName (n : Name) : Name := n.map upByte

/-- Helper to write concrete byte-string literals. -/
def strBytes (s : String) : Name := s.data.map Char.toNat

/-- A parsed archive: its member index (member names).  Models the
`Common::Archive` objects produced by the loaders. -/
structure Archv where
  members : List Name
deriving DecidableEq

/-- `Archive::hasFile` on a parsed archive. -/
def hasFileA (a : Archv) (f : Name) : Bool := a.members.contains f

/-- The mutable state of the `Resource` facade: the normal ("archives")
layer, the "protected" layer, the `_archiveCache` map, the store of live
archive objects keyed by identity, the next fresh identity, and a counter
of loader dispatches (the parse-count probe of the specification). -/
structure RState where
  archiveFiles : List (Name × Nat)
  protectedFiles : List (Name × Nat)
  archiveCache : List (Name × Nat)
  store : List (Nat × Archv)
  nextId : Nat
  parseCount : Nat
deriving DecidableEq

/-- The initial, empty facade state. -/
def emptyState : RState := ⟨[], [], [], [], 0, 0⟩

/-- The environment of a `Resource`: `getMember` models `_files.getMember`
resolution, `streamOk` models `member->createReadStream()` success, and
`parseOk` models the outcome of dispatching the loader registry on the
stream of the member (`some a` when some loader produces archive `a`).  The
detailed loader loop with stream positions is modelled separately by
`loaderLoop`. -/
structure World where
  getMember : Name → Bool
  streamOk : Name → Bool
  parseOk : Name → Option Archv
  fileBytes : Name → Option (List Nat)

/-- `SearchSet::hasArchive`: is a layer entry registered under this name? -/
def hasArchive (layer : List (Name × Nat)) (n : Name) : Bool :=
  layer.any (fun e => e.1 == n)

/-- `SearchSet::remove`: drop the node registered under this name. -/
def removeArchive (layer : List (Name × Nat)) (n : Name) : List (Name × Nat) :=
  layer.filter (fun e => !(e.1 == n))

/-- `_archiveCache.find`: the cached archive identity for a name, if any. -/
def lookupCache (c : List (Name × Nat)) (n : Name) : Option Nat :=
  match c.find? (fun e => e.1 == n) with
  | some e => some e.2
  | none => none

/-- `_archiveCache.erase`: remove the cache entry of a name. -/
def eraseCache (c : List (Name × Nat)) (n : Name) : List (Name × Nat) :=
  c.filter (fun e => !(e.1 == n))

/-- Dereference an archive identity: succeeds only while the archive
object is still alive in the store. -/
def lookupStore (store : List (Nat × Archv)) (id : Nat) : Option Archv :=
  match store.find? (fun e => e.1 == id) with
  | some e => some e.2
  | none => none

/-- `delete iter->_value`: destroy the archive object with this identity. -/
def removeStore (store : List (Nat × Archv)) (id : Nat) : List (Nat × Archv) :=
  store.filter (fun e => !(e.1 == id))

/-- `Resource::loadArchive(name, member)` (resource.cpp:398-428): a cache
hit returns the cached instance with no stream creation and no loader
dispatch; otherwise the stream of the member is opened (failure returns null),
the loader registry is dispatched on it (counted by `parseCount`), and a
produced archive is stored and cached under `name` as given. -/
def loadArchiveS (w : World) (st : RState) (name : Name) : Option Nat × RState :=
  match lookupCache st.archiveCache name with
  | some id => (some id, st)
  | none =>
    if w.streamOk name then
      match w.parseOk name with
      | some a =>
        (some st.nextId,
          { st with
            store := (st.nextId, a) :: st.store
            archiveCache := (name, st.nextId) :: st.archiveCache
            nextId := st.nextId + 1
            parseCount := st.parseCount + 1 })
      | none => (none, { st with parseCount := st.parseCount + 1 })
    else (none, st)

/-- `Resource::loadPakFile(name, file)` (resource.cpp:217-231): uppercase
the name; if it is registered in the normal or the protected layer, return
true at once; otherwise load the archive and add it to the normal layer. -/
def loadPakFile (w : World) (st : RState) (name : Name) : Bool × RState :=
  let nameFixed := upName name
  if hasArchive st.archiveFiles nameFixed || hasArchive st.protectedFiles nameFixed then
    (true, st)
  else
    match loadArchiveS w st nameFixed with
    | (some id, st2) => (true, { st2 with archiveFiles := (nameFixed, id) :: st2.archiveFiles })
    | (none, st2) => (false, st2)

/-- `Resource::loadProtectedFiles(list)` (resource.cpp:285-299): for each
listed name, resolve the member (failure is fatal, modelled as `none`),
load the archive (failure fatal) and add it to the protected layer under
the listed name as given. -/
def loadProtectedFiles (w : World) (st : RState) : List Name → Option RState
  | [] => some st
  | n :: rest =>
    if w.getMember n then
      match loadArchiveS w st n with
      | (some id, st2) =>
        loadProtectedFiles w { st2 with protectedFiles := (n, id) :: st2.protectedFiles } rest
      | (none, _) => none
    else none

/-- `Resource::unloadPakFile(name, remFromCache)` (resource.cpp:301-317):
only when the uppercased name is registered in the normal layer, remove it
there; additionally, when the flag is set and the cache holds the name,
destroy the cached archive object and erase the cache entry.  The
protected layer is never modified. -/
def unloadPakFile (st : RState) (name : Name) (remFromCache : Bool) : RState :=
  let nameFixed := upName name
  if hasArchive st.archiveFiles nameFixed then
    let st1 := { st with archiveFiles := removeArchive st.archiveFiles nameFixed }
    if remFromCache then
      match lookupCache st1.archiveCache nameFixed with
      | some id =>
        { st1 with
          store := removeStore st1.store id
          archiveCache := eraseCache st1.archiveCache nameFixed }
      | none => st1
    else st1
  else st

/-- `Resource::unloadAllPakFiles` (resource.cpp:331-334): clears both the
normal layer and the protected layer (the cache and the archive objects
are kept). -/
def unloadAllPakFiles (st : RState) : RState :=
  { st with archiveFiles := [], protectedFiles := [] }

/-- Apply a sequence of `unloadPakFile` operations (name, flag). -/
def applyUnloads (st : RState) (ops : List (Name × Bool)) : RState :=
  ops.foldl (fun s op => unloadPakFile s op.1 op.2) st

/-- Does a lookup through the protected layer resolve member `m`?  An
entry resolves only while its archive object is alive in the store. -/
def protLookup (st : RState) (m : Name) : Bool :=
  st.protectedFiles.any (fun e =>
    match lookupStore st.store e.2 with
    | some a => hasFileA a m
    | none => false)

/-- No protected-layer archive is reachable for deletion through the
normal layer: every cache binding of the identity of a protected archive is
under a name that is not registered in the normal layer. -/
def protSafe (st : RState) : Prop :=
  ∀ p ∈ st.protectedFiles, ∀ c ∈ st.archiveCache, c.2 = p.2 →
    hasArchive st.archiveFiles c.1 = false

/-- The truncating cast of a 32-bit unsigned value to `int32`, as performed
by the `(int32)maxSize` cast in `Resource::loadFileToBuf`. -/
def toInt32 (m : Nat) : Int :=
  if m % 4294967296 < 2147483648 then ((m % 4294967296 : Nat) : Int)
  else ((m % 4294967296 : Nat) : Int) - 4294967296

/-- `Resource::loadFileToBuf(file, buf, maxSize)` (resource.cpp:373-382):
if the file does not resolve to a stream, return false with the buffer
untouched; otherwise `memset(buf, 0, maxSize)` and then
`stream->read(buf, ((int32)maxSize <= stream->size()) ? maxSize : stream->size())`,
where a read request is served with at most the remaining bytes of the stream.
The buffer is modelled as a byte list; bytes beyond `maxSize` are outside
the buffer region the call may write. -/
def loadFileToBuf (w : World) (file : Name) (buf : List Nat) (maxSize : Nat) :
    Bool × List Nat :=
  match w.fileBytes file with
  | none => (false, buf)
  | some data =>
    let zeroed := List.replicate maxSize 0 ++ buf.drop maxSize
    let readReq := if toInt32 maxSize ≤ (data.length : Int) then maxSize else data.length
    let copied := min readReq data.length
    (true, data.take copied ++ zeroed.drop copied)

/-- A seekable read stream for the loader-dispatch model: its contents and
its current position. -/
structure LStream where
  data : List Nat
  pos : Nat
deriving DecidableEq

/-- `stream->seek(0, SEEK_SET)`. -/
def seekStart (s : LStream) : LStream := { s with pos := 0 }

/-- Observation events of the loader loop: the stream position at which an
`isLoadable` sniff is invoked, and the position at which `load` is
invoked. -/
inductive LEvent
  | sniffAt (pos : Nat)
  | loadAt (pos : Nat)
deriving DecidableEq

/-- A `ResArchiveLoader`: filename pattern check, content verification
(which may move the stream), and archive production. -/
structure Loader where
  checkFilename : Name → Bool
  isLoadable : Name → LStream → Bool × LStream
  load : Name → LStream → Option Archv

/-- The loader-registry dispatch loop of `Resource::loadArchive`
(resource.cpp:408-419): walk the registry in order; for each loader whose
filename check passes, run `isLoadable`; on success seek the stream to 0
and invoke `load` (then stop); on failure seek the stream to 0 and
continue with the next loader.  Alongside the result and final stream, the
invocation positions are recorded as events. -/
def loaderLoop (name : Name) (s : LStream) :
    List Loader → Option Archv × LStream × List LEvent
  | [] => (none, s, [])
  | l :: rest =>
    if l.checkFilename name then
      let r := l.isLoadable name s
      if r.1 then
        let s2 := seekStart r.2
        (l.load name s2, s2, [LEvent.sniffAt s.pos, LEvent.loadAt s2.pos])
      else
        let s2 := seekStart r.2
        let r2 := loaderLoop name s2 rest
        (r2.1, r2.2.1, LEvent.sniffAt s.pos :: r2.2.2)
    else loaderLoop name s rest

/-- The position recorded by a loader-loop event. -/
def eventPos : LEvent → Nat
  | LEvent.sniffAt p => p
  | LEvent.loadAt p => p

/-- All recorded loader invocations observed the stream at offset 0. -/
def allAtZero (evs : List LEvent) : Bool :=
  evs.all (fun e => eventPos e == 0)

/-- The minimum header size of a Kyrandia Mac installer part: of each part the
first 100 bytes are stripped (resource.cpp:54-56). -/
def macHeaderSize : Nat := 100

/-- The part-collection loop of `Resource::loadKyra1MacInstaller`
(resource.cpp:48-57): open part `i`, then the following `k` parts.  A part
that fails to open, or whose size is not strictly greater than 100 bytes,
is a fatal `error(...)` (modelled as `none`); otherwise the part
contributes the sub-stream view `[100, size)` of its bytes, in part
order. -/
def collectParts (partData : Nat → Option (List Nat)) : Nat → Nat → Option (List (List Nat))
  | _, 0 => some []
  | i, Nat.succ k =>
    match partData i with
    | none => none
    | some d =>
      if d.length ≤ macHeaderSize then none
      else
        match collectParts partData (i + 1) k with
        | none => none
        | some rest => some (d.drop macHeaderSize :: rest)

/-- `Common::ConcatReadStream` over the collected parts: the byte at
absolute offset `i` is found by walking the parts in order, consuming the
length of each part. -/
def concatByte : List (List Nat) → Nat → Option Nat
  | [], _ => none
  | p :: ps, i => if i < p.length then p[i]? else concatByte ps (i - p.length)

/-- The game identifiers distinguished by `Resource::reset`. -/
inductive GameId
  | kyra1 | kyra2 | kyra3 | lol | eob1 | eob2
deriving DecidableEq

/-- The configured language, as tested by `Resource::reset` (`EN_ANY` and
`ES_ESP` are the two values the scan compares against). -/
inductive Lang
  | enAny | esESP | otherLang (code : Nat)
deriving DecidableEq

def twmusicPak : Name := strBytes "TWMUSIC.PAK"
def eyePak : Name := strBytes "EYE.PAK"
def jmcPak : Name := strBytes "JMC.PAK"
def emcPak : Name := strBytes "EMC.PAK"
def itemDat : Name := strBytes "ITEM.DAT"

/-- The priority at which the constructor registers the global search
layer (`_files.add("global_search", ..., 3, false)`, resource.cpp:78). -/
def globalSearchPriority : Nat := 3

/-- The priority of the constructor-registered "protected" layer (resource.cpp:81). -/
def protectedLayerPriority : Nat := 1

/-- The priority of the constructor-registered "archives" layer (resource.cpp:82). -/
def archivesLayerPriority : Nat := 0

/-- `archive->hasFile(f)` for the archive with the given identity. -/
def storeHasFile (st : RState) (id : Nat) (f : Name) : Bool :=
  match lookupStore st.store id with
  | some a => hasFileA a f
  | none => false

/-- What the directory scan of `reset` registers for one discovered
archive. -/
structure ScanAdd where
  name : Name
  archiveId : Nat
  priority : Nat
deriving DecidableEq

/-- One iteration of the `*.PAK`/`*.APK` directory-scan loop of
`Resource::reset` (resource.cpp:146-169): uppercase the discovered name;
skip `TWMUSIC.PAK`/`EYE.PAK` and the other-language script archive; load
the archive from the original member name (failure is the fatal
the load-failure `error(...)` call, modelled as `none`); register it at
priority 4 when the game is EOB1, the language is Spanish and the archive
contains `ITEM.DAT`, and at priority 0 otherwise. -/
def resetScanBody (w : World) (game : GameId) (lang : Lang) (st : RState)
    (origName : Name) : Option (RState × Option ScanAdd) :=
  let name := upName origName
  if name = twmusicPak ∨ name = eyePak then some (st, none)
  else if name = (if lang = Lang.enAny then jmcPak else emcPak) then some (st, none)
  else
    match loadArchiveS w st origName with
    | (some id, st2) =>
      let highPrio := game = GameId.eob1 ∧ lang = Lang.esESP ∧ storeHasFile st2 id itemDat
      some (st2, some ⟨name, id, if highPrio then 4 else 0⟩)
    | (none, _) => none

/-- `Resource::loadStuffItArchive(stream, canonicalName, debugName)`
(resource.cpp:457-470): a cache hit under the canonical name returns the
cached instance; otherwise the StuffIt loader runs on the stream (its
outcome is the `loadResult` parameter) and a produced archive is stored
and cached under the canonical name exactly as passed. -/
def loadStuffItArchive (loadResult : Option Archv) (st : RState)
    (canonicalName : Name) : Option Nat × RState :=
  match lookupCache st.archiveCache canonicalName with
  | some id => (some id, st)
  | none =>
    match loadResult with
    | none => (none, st)
    | some a =>
      (some st.nextId,
        { st with
          store := (st.nextId, a) :: st.store
          archiveCache := (canonicalName, st.nextId) :: st.archiveCache
          nextId := st.nextId + 1
          parseCount := st.parseCount + 1 })

/-- The canonical name under which `Resource::loadKyra1MacInstaller`
caches the installer archive (resource.cpp:39 and 58). -/
def kyra1MacInstallerName : Name := strBytes "Install Legend of Kyrandia"

/-! Concrete fixtures used by the closed evaluation theorems. -/

def aPakName : Name := strBytes "A.PAK"

def bPakName : Name := strBytes "B.PAK"

def xName : Name := strBytes "X"

def cArch : Archv := ⟨[xName]⟩

def itemArch : Archv := ⟨[itemDat]⟩

/-- A sample environment: every member resolves, streams open, and the
loader registry parses every file into `cArch`. -/
def cWorld : World where
  getMember := fun _ => true
  streamOk := fun _ => true
  parseOk := fun _ => some cArch
  fileBytes := fun _ => some [1, 2, 3]

/-- A sample environment whose parsed archives contain `ITEM.DAT`. -/
def cWorldItem : World where
  getMember := fun _ => true
  streamOk := fun _ => true
  parseOk := fun _ => some itemArch
  fileBytes := fun _ => some []

/-- The state after loading `A.PAK` into the normal layer. -/
def c2st1 : RState := (loadPakFile cWorld emptyState aPakName).2

/-- `c2st1` after additionally loading `A.PAK` as a protected file: the
normal layer and the protected layer share the one cached archive. -/
def c2st2 : RState := (loadProtectedFiles cWorld c2st1 [aPakName]).getD emptyState

/-- The state after loading `A.PAK` as a protected file only. -/
def c3st : RState := (loadProtectedFiles cWorld emptyState [aPakName]).getD emptyState

/-- A loader whose content check always rejects after consuming bytes. -/
def l1Loader : Loader where
  checkFilename := fun _ => true
  isLoadable := fun _ s => (false, { s with pos := s.pos + 4 })
  load := fun _ _ => none

/-- A loader whose content check accepts after consuming one byte. -/
def l2Loader : Loader where
  checkFilename := fun _ => true
  isLoadable := fun _ s => (true, { s with pos := s.pos + 1 })
  load := fun _ _ => some cArch

def cStream : LStream := ⟨[7, 8, 9], 0⟩

/-- Five installer parts, each 101 bytes long (payload of one byte). -/
def cPartData : Nat → Option (List Nat) := fun i => some (List.replicate 101 i)

/-- Installer parts where part 2 is below the minimum header size. -/
def cBadPartData : Nat → Option (List Nat) := fun i =>
  if i = 2 then some [0] else some (List.replicate 101 i)

/-- The state produced by loading `A.PAK` in the `ITEM.DAT` environment. -/
def c7st : RState := (loadArchiveS cWorldItem emptyState aPakName).2

/-- The scan registration produced for `A.PAK` under (EOB1, Spanish). -/
def c7entry : ScanAdd := ⟨aPakName, 0, 4⟩

/-! Helper lemmas. -/

theorem upByte_idem (b : Nat) : upByte (upByte b) = upByte b := by
  unfold upByte
  split
  · split <;> omega
  · rfl

theorem upName_idem (n : Name) : upName (upName n) = upName n := by
  induction n with
  | nil => rfl
  | cons b t ih => simp only [upName, List.map_cons] at ih ⊢; rw [upByte_idem]; simp [ih]

theorem hasArchive_filter_false (l : List (Name × Nat)) (p : Name × Nat → Bool) (n : Name)
    (h : hasArchive l n = false) : hasArchive (l.filter p) n = false := by
  simp only [hasArchive, List.any_eq_false] at h ⊢
  intro x hx
  exact h x (List.mem_of_mem_filter hx)

theorem hasArchive_remove_self (l : List (Name × Nat)) (n : Name) :
    hasArchive (removeArchive l n) n = false := by
  simp only [hasArchive, removeArchive, List.any_eq_false]
  intro x hx
  have := (List.mem_filter.1 hx).2
  simp only [Bool.not_eq_true', beq_eq_false_iff_ne, ne_eq] at this
  simp [this]

theorem lookupCache_erase_self (c : List (Name × Nat)) (n : Name) :
    lookupCache (eraseCache c n) n = none := by
  unfold lookupCache
  have : (eraseCache c n).find? (fun e => e.1 == n) = none := by
    rw [List.find?_eq_none]
    intro x hx
    have := (List.mem_filter.1 hx).2
    simp only [Bool.not_eq_true', beq_eq_false_iff_ne, ne_eq] at this
    simp [this]
  rw [this]

theorem lookupCache_some (c : List (Name × Nat)) (n : Name) (id : Nat)
    (h : lookupCache c n = some id) : ∃ e ∈ c, e.1 = n ∧ e.2 = id := by
  unfold lookupCache at h
  cases hf : c.find? (fun e => e.1 == n) with
  | none => rw [hf] at h; cases h
  | some e =>
    rw [hf] at h
    cases h
    have hm := List.mem_of_find?_eq_some hf
    have hp := List.find?_some hf
    simp only [beq_iff_eq] at hp
    exact ⟨e, hm, hp, rfl⟩

theorem lookupStore_remove_ne (s : List (Nat × Archv)) (i j : Nat) (h : i ≠ j) :
    lookupStore (removeStore s j) i = lookupStore s i := by
  induction s with
  | nil => rfl
  | cons e t ih =>
    by_cases hj : e.1 = j
    · have hrm : removeStore (e :: t) j = removeStore t j := by
        simp [removeStore, List.filter_cons, hj]
      have hi : (e.1 == i) = false := by
        subst hj
        simp only [beq_eq_false_iff_ne, ne_eq]
        omega
      rw [hrm, ih]
      simp [lookupStore, List.find?_cons, hi]
    · have hrm : removeStore (e :: t) j = e :: removeStore t j := by
        simp [removeStore, List.filter_cons, hj]
      rw [hrm]
      cases hi : (e.1 == i) with
      | true => simp [lookupStore, List.find?_cons, hi]
      | false =>
        simp only [lookupStore, List.find?_cons, hi] at ih ⊢
        exact ih

theorem any_congr_mem {α : Type} (l : List α) (f g : α → Bool)
    (h : ∀ x ∈ l, f x = g x) : l.any f = l.any g := by
  induction l with
  | nil => rfl
  | cons a t ih =>
    simp only [List.any_cons]
    rw [h a (by simp), ih (fun x hx => h x (by simp [hx]))]

/-! Claim theorems. -/

/-- C1: opening a package is idempotent and never re-parses.  If the
uppercase name is registered in the normal or the protected layer,
`loadPakFile` returns true with the state untouched (so no loader runs);
and a name present in the archive cache makes `loadArchive` return the
identical cached archive instance with the state untouched (no stream is
created, no loader dispatched, the parse count unchanged). -/
theorem claim_C1 :
    (∀ (w : World) (st : RState) (name : Name),
      (hasArchive st.archiveFiles (upName name)
        || hasArchive st.protectedFiles (upName name)) = true →
      loadPakFile w st name = (true, st))
    ∧ (∀ (w : World) (st : RState) (name : Name) (id : Nat),
      lookupCache st.archiveCache name = some id →
      loadArchiveS w st name = (some id, st)) := by
  constructor
  · intro w st name h
    simp [loadPakFile, h]
  · intro w st name id h
    simp [loadArchiveS, h]

theorem claim_C1_witness :
    loadPakFile cWorld c2st1 aPakName = (true, c2st1)
    ∧ loadArchiveS cWorld c2st1 aPakName = (some 0, c2st1) :=
  ⟨claim_C1.1 cWorld c2st1 aPakName (by decide),
   claim_C1.2 cWorld c2st1 aPakName 0 (by decide)⟩

/-- C10: `unloadPakFile` is a no-op when the uppercased name is not
registered in the normal layer — the whole state (normal layer, protected
layer, cache and archive store) is returned unchanged, for either value of
the remove-from-cache flag. -/
theorem claim_C10 : ∀ (st : RState) (name : Name) (remFromCache : Bool),
    hasArchive st.archiveFiles (upName name) = false →
    unloadPakFile st name remFromCache = st := by
  intro st name f h
  simp [unloadPakFile, h]

theorem claim_C10_witness : unloadPakFile c3st aPakName true = c3st :=
  claim_C10 c3st aPakName true (by decide)

/-- C5: loader fallback preserves the stream.  Starting from a stream at
offset 0, every `isLoadable` sniff in the registry walk observes the
stream at offset 0 (a failed sniff is followed by a seek to 0 before the
check of the next loader), and after a successful sniff `load` is invoked at
offset 0. -/
theorem claim_C5 : ∀ (name : Name) (s : LStream) (loaders : List Loader),
    s.pos = 0 → allAtZero (loaderLoop name s loaders).2.2 = true := by
  intro name s loaders
  induction loaders generalizing s with
  | nil => intro h; rfl
  | cons l rest ih =>
    intro h
    simp only [loaderLoop]
    split
    · split
      · simp [allAtZero, eventPos, h, seekStart]
      · have hrec := ih (seekStart (l.isLoadable name s).2) rfl
        simp only [allAtZero, List.all_cons, eventPos, h] at hrec ⊢
        simp [hrec]
    · exact ih s h

theorem claim_C5_witness :
    allAtZero (loaderLoop aPakName cStream [l1Loader, l2Loader]).2.2 = true :=
  claim_C5 aPakName cStream [l1Loader, l2Loader] rfl

/-- C2 counterexample: the claim fails when the name is registered in both
layers.  Loading `A.PAK` into the normal layer and then into the protected
layer makes both layers share the one cached archive; `unloadPakFile`
with the remove-from-cache flag then destroys that archive, so although
the protected layer itself is unchanged, the subsequent member lookup
through it no longer succeeds. -/
theorem claim_C2_counterexample :
    loadPakFile cWorld emptyState aPakName = (true, c2st1)
    ∧ loadProtectedFiles cWorld c2st1 [aPakName] = some c2st2
    ∧ protLookup c2st2 xName = true
    ∧ (unloadPakFile c2st2 aPakName true).protectedFiles = c2st2.protectedFiles
    ∧ protLookup (unloadPakFile c2st2 aPakName true) xName = false := by
  decide

/-- C2 amended: `unloadPakFile` never modifies the protected layer, for
every name and flag; and whenever the uppercased name is not registered in
the normal layer, or the remove-from-cache flag is false, member lookups
through the protected layer are unchanged as well (so a lookup that
succeeded before the call still succeeds).  (As stated, the claim fails
when the name is in both layers and the flag is set: the shared cached
archive is destroyed.) -/
theorem claim_C2_amended :
    ∀ (st : RState) (name : Name) (remFromCache : Bool) (m : Name),
    (unloadPakFile st name remFromCache).protectedFiles = st.protectedFiles
    ∧ ((hasArchive st.archiveFiles (upName name) = false ∨ remFromCache = false) →
      protLookup (unloadPakFile st name remFromCache) m = protLookup st m) := by
  intro st name f m
  constructor
  · simp only [unloadPakFile]
    split
    · split
      · split <;> rfl
      · rfl
    · rfl
  · intro h
    rcases h with h | h
    · simp [unloadPakFile, h]
    · subst h
      simp only [unloadPakFile, Bool.false_eq_true, if_false]
      split
      · simp [protLookup]
      · rfl

theorem claim_C2_amended_witness :
    (unloadPakFile c2st2 aPakName false).protectedFiles = c2st2.protectedFiles
    ∧ protLookup (unloadPakFile c2st2 aPakName false) xName = protLookup c2st2 xName :=
  ⟨(claim_C2_amended c2st2 aPakName false xName).1,
   (claim_C2_amended c2st2 aPakName false xName).2 (Or.inr rfl)⟩

/-- C9: unload-then-reload reparse semantics.  For a name loaded in the
normal layer: after `unloadPakFile(name, false)` the cache entry survives,
so reopening succeeds with the parse count unchanged (no loader runs);
after `unloadPakFile(name, true)` the cache entry is erased and the cached
archive destroyed, so reopening (in an environment where the
stream opens and a loader accepts it) succeeds with the parse count
incremented exactly once. -/
theorem claim_C9 :
    (∀ (w : World) (st : RState) (name : Name) (id : Nat),
      hasArchive st.archiveFiles (upName name) = true →
      lookupCache st.archiveCache (upName name) = some id →
      (loadPakFile w (unloadPakFile st name false) name).1 = true
      ∧ (loadPakFile w (unloadPakFile st name false) name).2.parseCount = st.parseCount)
    ∧ (∀ (w : World) (st : RState) (name : Name) (a : Archv),
      hasArchive st.archiveFiles (upName name) = true →
      hasArchive st.protectedFiles (upName name) = false →
      w.streamOk (upName name) = true →
      w.parseOk (upName name) = some a →
      lookupCache (unloadPakFile st name true).archiveCache (upName name) = none
      ∧ (loadPakFile w (unloadPakFile st name true) name).1 = true
      ∧ (loadPakFile w (unloadPakFile st name true) name).2.parseCount
        = st.parseCount + 1) := by
  constructor
  · intro w st name id h1 hc
    have hres : unloadPakFile st name false
        = { st with archiveFiles := removeArchive st.archiveFiles (upName name) } := by
      simp [unloadPakFile, h1]
    rw [hres]
    have hrm := hasArchive_remove_self st.archiveFiles (upName name)
    cases hp : hasArchive st.protectedFiles (upName name) with
    | true => simp [loadPakFile, hrm, hp]
    | false => simp [loadPakFile, hrm, hp, loadArchiveS, hc]
  · intro w st name a h1 hp hso hpo
    cases hc : lookupCache st.archiveCache (upName name) with
    | some id =>
      have hres : unloadPakFile st name true = { st with archiveFiles := removeArchive st.archiveFiles (upName name), store := removeStore st.store id, archiveCache := eraseCache st.archiveCache (upName name) } := by
        simp [unloadPakFile, h1, hc]
      rw [hres]
      have hrm := hasArchive_remove_self st.archiveFiles (upName name)
      have her := lookupCache_erase_self st.archiveCache (upName name)
      refine ⟨her, ?_⟩
      simp [loadPakFile, hrm, hp, loadArchiveS, her, hso, hpo]
    | none =>
      have hres : unloadPakFile st name true
          = { st with archiveFiles := removeArchive st.archiveFiles (upName name) } := by
        simp [unloadPakFile, h1, hc]
      rw [hres]
      have hrm := hasArchive_remove_self st.archiveFiles (upName name)
      refine ⟨hc, ?_⟩
      simp [loadPakFile, hrm, hp, loadArchiveS, hc, hso, hpo]

theorem claim_C9_witness :
    ((loadPakFile cWorld (unloadPakFile c2st1 aPakName false) aPakName).1 = true
      ∧ (loadPakFile cWorld (unloadPakFile c2st1 aPakName false) aPakName).2.parseCount
        = c2st1.parseCount)
    ∧ (lookupCache (unloadPakFile c2st1 aPakName true).archiveCache (upName aPakName) = none
      ∧ (loadPakFile cWorld (unloadPakFile c2st1 aPakName true) aPakName).1 = true
      ∧ (loadPakFile cWorld (unloadPakFile c2st1 aPakName true) aPakName).2.parseCount
        = c2st1.parseCount + 1) :=
  ⟨claim_C9.1 cWorld c2st1 aPakName 0 (by decide) (by decide),
   claim_C9.2 cWorld c2st1 aPakName cArch (by decide) (by decide) (by decide) (by decide)⟩

theorem concatByte_flatten (ps : List (List Nat)) (i : Nat) :
    concatByte ps i = ps.flatten[i]? := by
  induction ps generalizing i with
  | nil => simp [concatByte]
  | cons p t ih =>
    simp only [concatByte, List.flatten_cons]
    split
    · rename_i hlt
      rw [List.getElem?_append_left hlt]
    · rename_i hge
      rw [List.getElem?_append_right (by omega)]
      exact ih _

theorem collectParts_none (pd : Nat → Option (List Nat)) :
    ∀ (cnt i k : Nat), i ≤ k → k < i + cnt →
    (pd k = none ∨ (∃ d, pd k = some d ∧ d.length ≤ macHeaderSize)) →
    collectParts pd i cnt = none := by
  intro cnt
  induction cnt with
  | zero => intro i k hik hk hbad; omega
  | succ c ih =>
    intro i k hik hk hbad
    by_cases hki : k = i
    · subst hki
      rcases hbad with hb | ⟨d, hd, hdl⟩
      · simp [collectParts, hb]
      · simp [collectParts, hd, hdl]
    · have hik2 : i + 1 ≤ k := by omega
      have hrec := ih (i + 1) k hik2 (by omega) hbad
      cases hpd : pd i with
      | none => simp [collectParts, hpd]
      | some d => simp [collectParts, hpd, hrec]

/-- C6: multi-part installer loading.  If the five-part collection
succeeds, then every part opened and its size exceeded the 100-byte
minimum, the collected parts are exactly the bytes of the five parts with their
100-byte headers stripped, in part order, and reading the concatenated
stream at any offset yields exactly the payloads laid end-to-end (no gap,
no duplication).  If any of the five parts fails to open or does not
exceed the minimum header size, the load is the fatal error (`none`). -/
theorem claim_C6 :
    (∀ (pd : Nat → Option (List Nat)) (d1 d2 d3 d4 d5 : List Nat) (i : Nat),
      pd 1 = some d1 → pd 2 = some d2 → pd 3 = some d3 → pd 4 = some d4 →
      pd 5 = some d5 →
      macHeaderSize < d1.length → macHeaderSize < d2.length →
      macHeaderSize < d3.length → macHeaderSize < d4.length →
      macHeaderSize < d5.length →
      collectParts pd 1 5
        = some [d1.drop macHeaderSize, d2.drop macHeaderSize, d3.drop macHeaderSize,
            d4.drop macHeaderSize, d5.drop macHeaderSize]
      ∧ concatByte [d1.drop macHeaderSize, d2.drop macHeaderSize, d3.drop macHeaderSize,
          d4.drop macHeaderSize, d5.drop macHeaderSize] i
        = (d1.drop macHeaderSize ++ d2.drop macHeaderSize ++ d3.drop macHeaderSize
            ++ d4.drop macHeaderSize ++ d5.drop macHeaderSize)[i]?)
    ∧ (∀ (pd : Nat → Option (List Nat)) (k : Nat), 1 ≤ k → k ≤ 5 →
      (pd k = none ∨ (∃ d, pd k = some d ∧ d.length ≤ macHeaderSize)) →
      collectParts pd 1 5 = none) := by
  constructor
  · intro pd d1 d2 d3 d4 d5 i h1 h2 h3 h4 h5 hl1 hl2 hl3 hl4 hl5
    constructor
    · show collectParts pd 1 5 = _
      rw [show (5 : Nat) = Nat.succ 4 from rfl]
      simp only [collectParts, h1, h2, h3, h4, h5]
      rw [if_neg (by omega), if_neg (by omega), if_neg (by omega),
        if_neg (by omega), if_neg (by omega)]
    · rw [concatByte_flatten]
      simp [List.append_assoc]
  · intro pd k hk1 hk5 hbad
    exact collectParts_none pd 5 1 k hk1 (by omega) hbad

theorem claim_C6_witness :
    (collectParts cPartData 1 5
      = some [(List.replicate 101 1).drop macHeaderSize,
          (List.replicate 101 2).drop macHeaderSize,
          (List.replicate 101 3).drop macHeaderSize,
          (List.replicate 101 4).drop macHeaderSize,
          (List.replicate 101 5).drop macHeaderSize]
      ∧ concatByte [(List.replicate 101 1).drop macHeaderSize,
          (List.replicate 101 2).drop macHeaderSize,
          (List.replicate 101 3).drop macHeaderSize,
          (List.replicate 101 4).drop macHeaderSize,
          (List.replicate 101 5).drop macHeaderSize] 3
        = ((List.replicate 101 1).drop macHeaderSize
            ++ (List.replicate 101 2).drop macHeaderSize
            ++ (List.replicate 101 3).drop macHeaderSize
            ++ (List.replicate 101 4).drop macHeaderSize
            ++ (List.replicate 101 5).drop macHeaderSize)[3]?)
    ∧ collectParts cBadPartData 1 5 = none :=
  ⟨claim_C6.1 cPartData (List.replicate 101 1) (List.replicate 101 2)
    (List.replicate 101 3) (List.replicate 101 4) (List.replicate 101 5) 3
    rfl rfl rfl rfl rfl (by decide) (by decide) (by decide) (by decide) (by decide),
   claim_C6.2 cBadPartData 2 (by decide) (by decide)
    (Or.inr ⟨[0], by decide, by decide⟩)⟩

/-- C7: the documented priority override applies exactly to its tuple.
In the directory-scan loop of `reset`, a successfully loaded archive is
registered at priority 4 — above the global search layer priority 3 —
if and only if the game is EOB1, the language is Spanish and the archive
contains a member `ITEM.DAT`; every other archive the scan registers is
added at priority 0. -/
theorem claim_C7 :
    ∀ (w : World) (game : GameId) (lang : Lang) (st st2 : RState)
      (origName : Name) (entry : ScanAdd),
    resetScanBody w game lang st origName = some (st2, some entry) →
    (entry.priority = 4
      ↔ (game = GameId.eob1 ∧ lang = Lang.esESP
          ∧ storeHasFile st2 entry.archiveId itemDat = true))
    ∧ (entry.priority = 4 ∨ entry.priority = 0)
    ∧ globalSearchPriority < 4 := by
  intro w game lang st st2 origName entry h
  unfold resetScanBody at h
  by_cases h1 : upName origName = twmusicPak ∨ upName origName = eyePak
  · rw [if_pos h1] at h
    simp at h
  · rw [if_neg h1] at h
    by_cases h2 : upName origName = (if lang = Lang.enAny then jmcPak else emcPak)
    · rw [if_pos h2] at h
      simp at h
    · rw [if_neg h2] at h
      rcases hl : loadArchiveS w st origName with ⟨oid, st3⟩
      rw [hl] at h
      cases oid with
      | none => simp at h
      | some id =>
        simp only [Option.some.injEq, Prod.mk.injEq] at h
        obtain ⟨hst, hent⟩ := h
        subst hst
        by_cases hp : game = GameId.eob1 ∧ lang = Lang.esESP
            ∧ storeHasFile st3 id itemDat = true
        · rw [if_pos hp] at hent
          rw [← hent]
          exact ⟨⟨fun _ => ⟨hp.1, hp.2.1, hp.2.2⟩, fun _ => rfl⟩,
            Or.inl rfl, by simp [globalSearchPriority]⟩
        · rw [if_neg hp] at hent
          rw [← hent]
          exact ⟨⟨fun h4 => absurd h4 (by simp),
              fun hc => absurd ⟨hc.1, hc.2.1, hc.2.2⟩ hp⟩,
            Or.inr rfl, by simp [globalSearchPriority]⟩

theorem claim_C7_witness :
    (c7entry.priority = 4
      ↔ (GameId.eob1 = GameId.eob1 ∧ Lang.esESP = Lang.esESP
          ∧ storeHasFile c7st c7entry.archiveId itemDat = true))
    ∧ (c7entry.priority = 4 ∨ c7entry.priority = 0)
    ∧ globalSearchPriority < 4 :=
  claim_C7 cWorldItem GameId.eob1 Lang.esESP emptyState c7st aPakName c7entry (by decide)

/-- C8 counterexample: `loadKyra1MacInstaller` caches the StuffIt
installer archive under the canonical name "Install Legend of Kyrandia"
(resource.cpp:39/58), which is not equal to its own uppercasing — so not
every cache-insertion key is uppercase-normalized. -/
theorem claim_C8_counterexample :
    (loadStuffItArchive (some cArch) emptyState kyra1MacInstallerName).2.archiveCache
      = [(kyra1MacInstallerName, 0)]
    ∧ upName kyra1MacInstallerName ≠ kyra1MacInstallerName := by
  decide

/-- C8 amended: the package-loading path (`loadPakFile`) inserts only
uppercase-normalized cache keys (every key it adds equals its own
uppercasing); but the installer/StuffIt paths cache under the literal
canonical name they are handed — in particular the mixed-case
"Install Legend of Kyrandia" — and the `reset` directory scan passes the
original, not-necessarily-uppercase name of the discovered member to
`loadArchive` as the cache key. -/
theorem claim_C8_amended :
    ∀ (w : World) (st : RState) (name k : Name) (id : Nat),
    (k, id) ∈ (loadPakFile w st name).2.archiveCache →
    (k, id) ∈ st.archiveCache ∨ upName k = k := by
  intro w st name k id h
  simp only [loadPakFile] at h
  split at h
  · exact Or.inl h
  · rcases hl : loadArchiveS w st (upName name) with ⟨oid, st3⟩
    rw [hl] at h
    have hcache : (k, id) ∈ st3.archiveCache →
        (k, id) ∈ st.archiveCache ∨ upName k = k := by
      intro h3
      simp only [loadArchiveS] at hl
      split at hl
      · cases hl; exact Or.inl h3
      · split at hl
        · split at hl
          · cases hl
            simp only [List.mem_cons] at h3
            rcases h3 with h3 | h3
            · cases h3
              exact Or.inr (upName_idem name)
            · exact Or.inl h3
          · cases hl; exact Or.inl h3
        · cases hl; exact Or.inl h3
    cases oid with
    | some id2 => exact hcache h
    | none => exact hcache h

theorem claim_C8_amended_witness :
    (upName aPakName, 0) ∈ (loadPakFile cWorld emptyState aPakName).2.archiveCache
    ∧ ((upName aPakName, 0) ∈ emptyState.archiveCache ∨ upName (upName aPakName) = upName aPakName) :=
  ⟨by decide,
   claim_C8_amended cWorld emptyState aPakName (upName aPakName) 0 (by decide)⟩

/-- C4: `loadFileToBuf` on a resolvable file zero-fills the `maxSize`-byte
destination region and copies exactly `min maxSize size` bytes from the
start of the file (an undersized file leaves a zero tail, an oversized
file is truncated, bytes beyond the region are untouched) and returns
true; an unresolvable file returns false with the buffer unmodified. -/
theorem claim_C4 : ∀ (w : World) (file : Name) (buf : List Nat) (maxSize : Nat),
    (∀ data, w.fileBytes file = some data →
      loadFileToBuf w file buf maxSize
        = (true, data.take (min maxSize data.length)
            ++ List.replicate (maxSize - min maxSize data.length) 0
            ++ buf.drop maxSize))
    ∧ (w.fileBytes file = none → loadFileToBuf w file buf maxSize = (false, buf)) := by
  intro w file buf maxSize
  constructor
  · intro data hd
    simp only [loadFileToBuf, hd]
    have hcopied :
        min (if toInt32 maxSize ≤ (data.length : Int) then maxSize else data.length)
          data.length = min maxSize data.length := by
      split
      · rfl
      · rename_i hlt
        have hmle : maxSize % 4294967296 ≤ maxSize := Nat.mod_le _ _
        simp only [toInt32] at hlt
        split at hlt <;> omega
    rw [hcopied]
    have hle : min maxSize data.length ≤ maxSize := Nat.min_le_left _ _
    have hrep : (List.replicate maxSize 0).length = maxSize := List.length_replicate _ _
    rw [List.drop_append_of_le_length (by rw [hrep]; exact hle),
      List.drop_replicate, List.append_assoc]
  · intro hn
    simp [loadFileToBuf, hn]

instance protSafeDec (st : RState) : Decidable (protSafe st) := by
  unfold protSafe
  infer_instance

theorem unload_protected_frame (st : RState) (n : Name) (f : Bool) (hs : protSafe st) :
    (unloadPakFile st n f).protectedFiles = st.protectedFiles
    ∧ (∀ m, protLookup (unloadPakFile st n f) m = protLookup st m)
    ∧ protSafe (unloadPakFile st n f) := by
  by_cases h1 : hasArchive st.archiveFiles (upName n) = true
  · by_cases hf : f = true
    · subst hf
      cases hc : lookupCache st.archiveCache (upName n) with
      | none =>
        have hres : unloadPakFile st n true
            = { st with archiveFiles := removeArchive st.archiveFiles (upName n) } := by
          simp [unloadPakFile, h1, hc]
        rw [hres]
        refine ⟨rfl, fun m => rfl, ?_⟩
        intro p hp c hcm hid
        exact hasArchive_filter_false _ _ _ (hs p hp c hcm hid)
      | some id =>
        have hres : unloadPakFile st n true = { st with archiveFiles := removeArchive st.archiveFiles (upName n), store := removeStore st.store id, archiveCache := eraseCache st.archiveCache (upName n) } := by
          simp [unloadPakFile, h1, hc]
        have hdel : ∀ p ∈ st.protectedFiles, p.2 ≠ id := by
          intro p hp hpe
          obtain ⟨c, hcm, hc1, hc2⟩ := lookupCache_some _ _ _ hc
          have := hs p hp c hcm (by omega)
          rw [hc1] at this
          rw [this] at h1
          cases h1
        rw [hres]
        refine ⟨rfl, fun m => ?_, ?_⟩
        · simp only [protLookup]
          apply any_congr_mem
          intro p hp
          rw [lookupStore_remove_ne _ _ _ (hdel p hp)]
        · intro p hp c hcm hid
          have hcm2 : c ∈ st.archiveCache := List.mem_of_mem_filter hcm
          exact hasArchive_filter_false _ _ _ (hs p hp c hcm2 hid)
    · have hf2 : f = false := by cases f <;> simp_all
      subst hf2
      have hres : unloadPakFile st n false
          = { st with archiveFiles := removeArchive st.archiveFiles (upName n) } := by
        simp [unloadPakFile, h1]
      rw [hres]
      refine ⟨rfl, fun m => rfl, ?_⟩
      intro p hp c hcm hid
      exact hasArchive_filter_false _ _ _ (hs p hp c hcm hid)
  · have h0 : hasArchive st.archiveFiles (upName n) = false := by
      cases hh : hasArchive st.archiveFiles (upName n) <;> simp_all
    have hres : unloadPakFile st n f = st := by
      simp [unloadPakFile, h0]
    rw [hres]
    exact ⟨rfl, fun _ => rfl, hs⟩

/-- C3 counterexample: the teardown at the start of `reset` is
`unloadAllPakFiles`, which clears the protected layer along with the
normal layer.  After loading `A.PAK` as a protected file, its member
resolves; after `unloadAllPakFiles` the protected layer is empty and the
member no longer resolves, refuting the claim that the teardown tears down
only the unloadable archives. -/
theorem claim_C3_counterexample :
    loadProtectedFiles cWorld emptyState [aPakName] = some c3st
    ∧ protLookup c3st xName = true
    ∧ (unloadAllPakFiles c3st).protectedFiles = []
    ∧ protLookup (unloadAllPakFiles c3st) xName = false := by
  decide

/-- C3 amended: protected archives survive arbitrary `unloadPakFile`
cycles — across any sequence of such calls the protected layer is
unchanged and, provided no cache binding of a protected archive is under a
name registered in the normal layer, member lookups through it are
unchanged.  The teardown at the start of `reset` (`unloadAllPakFiles`),
however, clears the protected layer together with the normal layer. -/
theorem claim_C3_amended :
    (∀ (st : RState) (ops : List (Name × Bool)) (m : Name), protSafe st →
      (applyUnloads st ops).protectedFiles = st.protectedFiles
      ∧ protLookup (applyUnloads st ops) m = protLookup st m)
    ∧ (∀ st : RState, (unloadAllPakFiles st).archiveFiles = []
      ∧ (unloadAllPakFiles st).protectedFiles = []) := by
  constructor
  · intro st ops m hs
    induction ops generalizing st with
    | nil => exact ⟨rfl, rfl⟩
    | cons op rest ih =>
      have hstep := unload_protected_frame st op.1 op.2 hs
      have hrest := ih (unloadPakFile st op.1 op.2) hstep.2.2
      refine ⟨?_, ?_⟩
      · show (applyUnloads (unloadPakFile st op.1 op.2) rest).protectedFiles = _
        rw [hrest.1, hstep.1]
      · show protLookup (applyUnloads (unloadPakFile st op.1 op.2) rest) m = _
        rw [hrest.2, hstep.2.1 m]
  · intro st
    exact ⟨rfl, rfl⟩

theorem claim_C3_amended_witness :
    (applyUnloads c3st [(bPakName, true), (aPakName, false)]).protectedFiles
      = c3st.protectedFiles
    ∧ protLookup (applyUnloads c3st [(bPakName, true), (aPakName, false)]) xName
      = protLookup c3st xName :=
  claim_C3_amended.1 c3st [(bPakName, true), (aPakName, false)] xName (by decide)

theorem claim_C4_witness :
    loadFileToBuf cWorld aPakName [9, 9, 9, 9, 9] 4 = (true, [1, 2, 3, 0, 9])
    ∧ loadFileToBuf cWorld aPakName [9, 9] 2 = (true, [1, 2]) := by
  have h1 := (claim_C4 cWorld aPakName [9, 9, 9, 9, 9] 4).1 [1, 2, 3] rfl
  have h2 := (claim_C4 cWorld aPakName [9, 9] 2).1 [1, 2, 3] rfl
  constructor
  · rw [h1]; rfl
  · rw [h2]; rfl
